import Mathlib

/-!
Shallow embedding of `src/python/connection.py`.

Bytes are modelled as `Nat`.  A Python `str` is modelled by the list of bytes
of its UTF-8 encoding: the UTF-8 codec (`str.encode` / `bytes.decode`) is a
Python built-in outside this repository and is a bijection onto valid byte
sequences, and every piece of framing arithmetic in the source operates on
the encoded bytes, so the byte-level model preserves all framing behaviour.
The JSON serializer `json.dumps` / `json.loads` is likewise external (the
`json` standard library) and is passed in as a function parameter.

The socket receive side is modelled by the list of bytes that will arrive
(`stream`) together with a schedule: the list of chunk sizes that the
successive `sock.recv` calls deliver.  A `recv` call with schedule entry `c`
and request `req` delivers `min c req` of the next stream bytes; a `0` entry
models `recv` returning `b''`, which is what a closed peer produces.  A read
loop that exhausts the schedule without completing models a loop that never
returns (it would keep blocking on or re-issuing `recv` calls forever); such
an outcome is `none` / `blocked`.
-/

namespace Connection

/-- `SimpleSocketConnection.JSON_TYPE = b'j'` (ASCII 106). -/
def JSON_TYPE : Nat := 106

/-- `SimpleSocketConnection.STRING_TYPE = b's'` (ASCII 115). -/
def STRING_TYPE : Nat := 115

/-- `SimpleSocketConnection.HEADER_LENGTH = 10`. -/
def HEADER_LENGTH : Nat := 10

/-- Fuel-driven decimal digit extraction, least significant digit first.
The fuel only needs to dominate the number of digits; `natToDigitsRev`
instantiates it with the number itself. -/
def natToDigitsRevFuel : Nat → Nat → List Nat
  | 0, _ => []
  | fuel + 1, n => if n = 0 then [] else (n % 10) :: natToDigitsRevFuel fuel (n / 10)

/-- Decimal digits of `n`, least significant first (`[]` for `0`). -/
def natToDigitsRev (n : Nat) : List Nat := natToDigitsRevFuel n n

/-- Python `str(n)` for a non-negative integer `n`, as ASCII bytes. -/
def strNat (n : Nat) : List Nat :=
  if n = 0 then [48] else ((natToDigitsRev n).map (fun d => d + 48)).reverse

/-- Python `str.zfill(width)` on an unsigned decimal string: left-pad with
ASCII `'0'` (48) up to `width`; a string already at least `width` long is
returned unchanged (`zfill` never truncates). -/
def zfill (width : Nat) (s : List Nat) : List Nat :=
  List.replicate (width - s.length) 48 ++ s

/-- `SimpleSocketConnection._length`: `len(string.encode())`, the byte length
of the UTF-8 encoding; in the byte model this is the list length. -/
def _length (s : List Nat) : Nat := s.length

/-- `SimpleSocketConnection.sendall_bytes`: the bytes handed to
`sock.sendall`, i.e. written to the transport. -/
def sendall_bytes (bytes_string : List Nat) : List Nat := bytes_string

/-- `SimpleSocketConnection.sendall_string`: `string.encode()` then
`sock.sendall`; in the byte model the encoding is the string itself. -/
def sendall_string (s : List Nat) : List Nat := s

/-- `SimpleSocketConnection._initiate`: the header bytes written, namely the
type byte followed by `str(length).zfill(HEADER_LENGTH - 1)`. -/
def _initiate (send_type : Nat) (length : Nat) : List Nat :=
  sendall_bytes (send_type :: zfill (HEADER_LENGTH - 1) (strNat length))

/-- `SimpleSocketConnection.send_string`: all bytes written to the transport,
header (`_initiate` with `STRING_TYPE`) followed by the encoded payload. -/
def send_string (s : List Nat) : List Nat :=
  _initiate STRING_TYPE (_length s) ++ sendall_string s

/-- `SimpleSocketConnection.send_json`: `json.dumps(obj)` (the external
serializer, passed as `dumps`) then `send_string`. -/
def send_json {α : Type} (dumps : α → List Nat) (obj : α) : List Nat :=
  send_string (dumps obj)

/-- `SimpleSocketConnection.send`: delegates to `send_json`. -/
def send {α : Type} (dumps : α → List Nat) (obj : α) : List Nat :=
  send_json dumps obj

/-- `send_json` with a fallible serializer, tracking the transport.
`dumps obj = none` models `json.dumps` raising on line 86, before
`send_string` on line 87 runs; the result is the flag whether the call
completed together with the transport contents after the call (`out` is what
was already on the transport before). -/
def send_json_run {α : Type} (dumps : α → Option (List Nat)) (obj : α)
    (out : List Nat) : Bool × List Nat :=
  match dumps obj with
  | none => (false, out)
  | some json_string => (true, out ++ send_string json_string)

/-- `send` with a fallible serializer: delegates to `send_json_run`. -/
def send_run {α : Type} (dumps : α → Option (List Nat)) (obj : α)
    (out : List Nat) : Bool × List Nat :=
  send_json_run dumps obj out

/-- The `while len(data) < length` loop of
`SimpleSocketConnection.receive_length`, accumulating `data`.  Each iteration
performs `sock.recv(length - len(data))`, which delivers
`min chunk request` bytes from the stream; on success the unread stream and
unused schedule are returned alongside the data.  The length is an `Int`
because the source obtains it from Python `int()`, which can be negative; the
loop body is skipped entirely for a non-positive remaining length, exactly as
in Python. -/
def receive_length_go : List Nat → List Nat → Int → List Nat →
    Option (List Nat × List Nat × List Nat)
  | [], stream, len, data =>
    if (data.length : Int) < len then none else some (data, stream, [])
  | c :: rest, stream, len, data =>
    if (data.length : Int) < len then
      receive_length_go rest
        (stream.drop (min c (len - (data.length : Int)).toNat)) len
        (data ++ stream.take (min c (len - (data.length : Int)).toNat))
    else some (data, stream, c :: rest)

/-- `SimpleSocketConnection.receive_length`: run the read loop starting from
`data = b''`. -/
def receive_length (sched stream : List Nat) (len : Int) :
    Option (List Nat × List Nat × List Nat) :=
  receive_length_go sched stream len []

/-- ASCII whitespace recognised by Python `str.strip` / `int()`. -/
def isSpaceB (b : Nat) : Bool :=
  decide (b = 32 ∨ b = 9 ∨ b = 10 ∨ b = 13 ∨ b = 11 ∨ b = 12)

/-- ASCII decimal digit. -/
def isDigitB (b : Nat) : Bool := decide (48 ≤ b ∧ b ≤ 57)

/-- Digit part of a Python integer literal after its first digit: further
digits, with single underscores permitted only between digits.  `acc` is the
value accumulated so far. -/
def digitpartAux : List Nat → Nat → Option Nat
  | [], acc => some acc
  | b :: rest, acc =>
    if b = 95 then
      match rest with
      | [] => none
      | b2 :: rest2 =>
        if isDigitB b2 then digitpartAux rest2 (acc * 10 + (b2 - 48)) else none
    else if isDigitB b then digitpartAux rest (acc * 10 + (b - 48)) else none

/-- Digit part of a Python integer literal: at least one digit, underscores
only between digits. -/
def parseDigitpart : List Nat → Option Nat
  | [] => none
  | b :: rest => if isDigitB b then digitpartAux rest (b - 48) else none

/-- Sign handling of Python `int()`: one optional `+` (43) or `-` (45)
directly followed by the digit part. -/
def pyIntSigned (bs : List Nat) : Option Int :=
  match bs with
  | [] => none
  | b :: rest =>
    if b = 43 then (parseDigitpart rest).map (fun n => (n : Int))
    else if b = 45 then (parseDigitpart rest).map (fun n => -(n : Int))
    else (parseDigitpart (b :: rest)).map (fun n => (n : Int))

/-- Strip leading and trailing ASCII whitespace, as Python `int()` does. -/
def stripSpaces (bs : List Nat) : List Nat :=
  ((bs.dropWhile isSpaceB).reverse.dropWhile isSpaceB).reverse

/-- Python `int(s)` on ASCII text: optional surrounding whitespace, optional
sign, then digits with single underscores between digits; `none` models the
`ValueError` raised on anything else.  (Non-ASCII digit characters, which
Python would also accept, do not occur in this protocol's headers.) -/
def pyInt (bs : List Nat) : Option Int := pyIntSigned (stripSpaces bs)

/-- Outcome of `SimpleSocketConnection._wait`: the parsed type byte and
length plus the unread stream/schedule, or the `ValueError` from `int()`, or
a header read that never completes. -/
inductive WaitResult where
  | ok (type_byte : Nat) (length : Int) (stream : List Nat) (sched : List Nat)
  | valueError
  | blocked
deriving DecidableEq

/-- `SimpleSocketConnection._wait`: read exactly `HEADER_LENGTH` bytes, take
byte 0 as the type byte and `int()` of bytes 1.. as the length. -/
def _wait (sched stream : List Nat) : WaitResult :=
  match receive_length sched stream (HEADER_LENGTH : Int) with
  | none => WaitResult.blocked
  | some (header_bytes, stream1, sched1) =>
    match pyInt (header_bytes.drop 1) with
    | none => WaitResult.valueError
    | some length => WaitResult.ok (header_bytes.headD 0) length stream1 sched1

/-- Outcome of `SimpleSocketConnection.receive`: a returned string, a parsed
JSON object, Python `None` (the fall-through when the type byte matches
neither tag), the `ValueError` from the length parse, a `json.loads` failure,
or a read loop that never returns. -/
inductive RecvResult (α : Type) where
  | str (s : List Nat)
  | obj (v : α)
  | noneVal
  | valueError
  | jsonError
  | blocked
deriving DecidableEq

/-- `SimpleSocketConnection.receive`: `_wait` for the header, read exactly
`length` payload bytes, then return the text for `STRING_TYPE`, the
deserialized object (external `json.loads`, passed as `loads`) for
`JSON_TYPE`, and Python `None` otherwise. -/
def receive {α : Type} (loads : List Nat → Option α) (sched stream : List Nat) :
    RecvResult α :=
  match _wait sched stream with
  | WaitResult.blocked => RecvResult.blocked
  | WaitResult.valueError => RecvResult.valueError
  | WaitResult.ok send_type length stream1 sched1 =>
    match receive_length sched1 stream1 length with
    | none => RecvResult.blocked
    | some (data, _, _) =>
      if send_type = STRING_TYPE then RecvResult.str data
      else if send_type = JSON_TYPE then
        match loads data with
        | some v => RecvResult.obj v
        | none => RecvResult.jsonError
      else RecvResult.noneVal

/-- Value of an ASCII digit string read as a decimal number (the reference
meaning of "parse the length field as decimal"). -/
def digitsToNat (ds : List Nat) : Nat :=
  ds.foldl (fun acc b => acc * 10 + (b - 48)) 0

/-- Value of a least-significant-first digit list. -/
def valRev : List Nat → Nat
  | [] => 0
  | d :: r => d + 10 * valRev r

/-- A connection operation performed by a relay thread: one `receive()` call
that returned `v`, or one `send(v)` call. -/
inductive Op (α : Type) where
  | recvOp (v : α)
  | sendOp (v : α)
deriving DecidableEq

/-- Whether an operation is a send. -/
def opIsSend {α : Type} : Op α → Bool
  | Op.sendOp _ => true
  | Op.recvOp _ => false

/-- Number of sends in a trace. -/
def sends {α : Type} (l : List (Op α)) : Nat := l.countP opIsSend

/-- Number of receives in a trace. -/
def recvs {α : Type} (l : List (Op α)) : Nat :=
  l.countP (fun o => !opIsSend o)

/-- `SimpleConnectionSlaveThread.run`, as the trace of connection operations
of up to `fuel` loop iterations together with the final value of the
`running` attribute.  `incoming` lists the successive outcomes of
`connection.receive()` (`Except.error` models the call raising); `respond v`
is the value the application eventually deposits with `put_response` for the
command `v`, or `none` if the application never responds (the
`_wait_output` poll then spins forever).  An iteration whose `receive`
raises lets the exception escape `run` (there is no handler): no further
operations happen and nothing is recorded — in particular `running` keeps
the value `True` set on entry. -/
def slave_run_exc {α : Type} : Nat → List (Except Unit α) → (α → Option α) →
    List (Op α) × Bool
  | 0, _, _ => ([], true)
  | _ + 1, [], _ => ([], true)
  | _ + 1, Except.error _ :: _, _ => ([], true)
  | k + 1, Except.ok v :: rest, respond =>
    match respond v with
    | none => ([Op.recvOp v], true)
    | some r =>
      ((Op.recvOp v) :: (Op.sendOp r) :: (slave_run_exc k rest respond).1,
        (slave_run_exc k rest respond).2)

/-- `SimpleConnectionMasterThread.run`, as the trace of connection operations
of up to `fuel` loop iterations together with the final `running` value.
`commands` lists the values the application deposits with `put_command`
(an empty remainder means `_wait_output` spins forever); `replies` lists the
successive outcomes of `connection.receive()`.  A reply that raises, or a
missing reply, ends the trace right after the corresponding send; an
escaping exception leaves `running` at `True`. -/
def master_run_exc {α : Type} : Nat → List α → List (Except Unit α) →
    List (Op α) × Bool
  | 0, _, _ => ([], true)
  | _ + 1, [], _ => ([], true)
  | _ + 1, c :: _, [] => ([Op.sendOp c], true)
  | _ + 1, c :: _, Except.error _ :: _ => ([Op.sendOp c], true)
  | k + 1, c :: cs, Except.ok r :: rs =>
    ((Op.sendOp c) :: (Op.recvOp r) :: (master_run_exc k cs rs).1,
      (master_run_exc k cs rs).2)

/-- `json.dumps` restricted to non-negative integers: the decimal text. -/
def dumpsNat (n : Nat) : List Nat := strNat n

/-- `json.loads` restricted to non-negative integer literals: inverse of
`dumpsNat` on its range. -/
def loadsNat (bs : List Nat) : Option Nat :=
  if bs.isEmpty then none
  else if bs.all isDigitB then some (digitsToNat bs) else none

/-- A deserializer that always fails; used where the deserializer is
irrelevant. -/
def loads0 (_ : List Nat) : Option Unit := none

/-! ### Decimal digit lemmas -/

/-- Zero has no digits, whatever the fuel. -/
theorem natToDigitsRevFuel_zero (fuel : Nat) : natToDigitsRevFuel fuel 0 = [] := by
  cases fuel <;> simp [natToDigitsRevFuel]

/-- Any fuel at least `n` computes the same digit list. -/
theorem natToDigitsRevFuel_congr :
    ∀ (f1 : Nat) (f2 n : Nat), n ≤ f1 → n ≤ f2 →
      natToDigitsRevFuel f1 n = natToDigitsRevFuel f2 n := by
  intro f1
  induction f1 with
  | zero =>
    intro f2 n h1 _
    have hn : n = 0 := Nat.le_zero.mp h1
    subst hn
    simp [natToDigitsRevFuel_zero, natToDigitsRevFuel]
  | succ f ih =>
    intro f2 n h1 h2
    match n with
    | 0 => simp [natToDigitsRevFuel_zero]
    | m + 1 =>
      match f2 with
      | 0 => exact absurd h2 (by omega)
      | g + 1 =>
        have hdiv : (m + 1) / 10 < m + 1 := Nat.div_lt_self (Nat.succ_pos m) (by norm_num)
        simp only [natToDigitsRevFuel]
        rw [ih g ((m + 1) / 10) (by omega) (by omega)]

/-- Recurrence for `natToDigitsRev` on positive input. -/
theorem natToDigitsRev_succ (m : Nat) :
    natToDigitsRev (m + 1) = ((m + 1) % 10) :: natToDigitsRev ((m + 1) / 10) := by
  have hdiv : (m + 1) / 10 < m + 1 := Nat.div_lt_self (Nat.succ_pos m) (by norm_num)
  simp only [natToDigitsRev, natToDigitsRevFuel]
  rw [natToDigitsRevFuel_congr m ((m + 1) / 10) ((m + 1) / 10) (by omega) (by omega)]
  simp

/-- The least-significant-first digits evaluate back to the number. -/
theorem valRev_natToDigitsRev (n : Nat) : valRev (natToDigitsRev n) = n := by
  induction n using Nat.strong_induction_on with
  | _ n ih =>
    match n with
    | 0 => simp [natToDigitsRev, natToDigitsRevFuel_zero, valRev]
    | m + 1 =>
      rw [natToDigitsRev_succ]
      have hdiv : (m + 1) / 10 < m + 1 := Nat.div_lt_self (Nat.succ_pos m) (by norm_num)
      simp only [valRev, ih ((m + 1) / 10) hdiv]
      omega

/-- Every extracted digit is below 10. -/
theorem natToDigitsRev_lt (n : Nat) : ∀ d ∈ natToDigitsRev n, d < 10 := by
  induction n using Nat.strong_induction_on with
  | _ n ih =>
    match n with
    | 0 => simp [natToDigitsRev, natToDigitsRevFuel_zero]
    | m + 1 =>
      rw [natToDigitsRev_succ]
      intro d hd
      rcases List.mem_cons.mp hd with h | h
      · subst h; exact Nat.mod_lt _ (by norm_num)
      · exact ih ((m + 1) / 10) (Nat.div_lt_self (Nat.succ_pos m) (by norm_num)) d h

/-- Numbers below `10 ^ k` have at most `k` digits. -/
theorem natToDigitsRev_length_le :
    ∀ (k n : Nat), n < 10 ^ k → (natToDigitsRev n).length ≤ k := by
  intro k
  induction k with
  | zero =>
    intro n h
    have hn : n = 0 := by simpa using Nat.lt_one_iff.mp (by simpa using h)
    subst hn
    simp [natToDigitsRev, natToDigitsRevFuel_zero]
  | succ k ih =>
    intro n h
    match n with
    | 0 => simp [natToDigitsRev, natToDigitsRevFuel_zero]
    | m + 1 =>
      rw [natToDigitsRev_succ]
      simp only [List.length_cons]
      have hq : (m + 1) / 10 < 10 ^ k := by
        have h10 : m + 1 < 10 ^ k * 10 := by
          calc m + 1 < 10 ^ (k + 1) := h
          _ = 10 ^ k * 10 := by rw [pow_succ]
        exact Nat.div_lt_of_lt_mul (by omega)
      have := ih ((m + 1) / 10) hq
      omega

/-- Numbers at least `10 ^ k` have more than `k` digits. -/
theorem natToDigitsRev_length_ge :
    ∀ (k n : Nat), 10 ^ k ≤ n → k + 1 ≤ (natToDigitsRev n).length := by
  intro k
  induction k with
  | zero =>
    intro n h
    match n with
    | 0 => exact absurd h (by norm_num)
    | m + 1 => rw [natToDigitsRev_succ]; simp
  | succ k ih =>
    intro n h
    match n with
    | 0 =>
      have hp : 0 < 10 ^ (k + 1) := pow_pos (by norm_num) _
      omega
    | m + 1 =>
      rw [natToDigitsRev_succ]
      simp only [List.length_cons]
      have hq : 10 ^ k ≤ (m + 1) / 10 := by
        rw [Nat.le_div_iff_mul_le (by norm_num)]
        calc 10 ^ k * 10 = 10 ^ (k + 1) := by rw [pow_succ]
        _ ≤ m + 1 := h
      have := ih ((m + 1) / 10) hq
      omega

/-- `str(n)` is never the empty string. -/
theorem strNat_length_pos (n : Nat) : 1 ≤ (strNat n).length := by
  match n with
  | 0 => simp [strNat]
  | m + 1 =>
    simp only [strNat, if_neg (Nat.succ_ne_zero m)]
    rw [List.length_reverse, List.length_map, natToDigitsRev_succ]
    simp

/-- `str(n)` for `n` within the 9-digit budget has at most 9 characters. -/
theorem strNat_length_le (n : Nat) (h : n ≤ 999999999) : (strNat n).length ≤ 9 := by
  match n with
  | 0 => simp [strNat]
  | m + 1 =>
    simp only [strNat, if_neg (Nat.succ_ne_zero m)]
    rw [List.length_reverse, List.length_map]
    exact natToDigitsRev_length_le 9 (m + 1) (by norm_num; omega)

/-- `str(n)` for `n` needing a tenth digit has at least 10 characters. -/
theorem strNat_length_ge (n : Nat) (h : 999999999 < n) : 10 ≤ (strNat n).length := by
  match n with
  | 0 => exact absurd h (by omega)
  | m + 1 =>
    simp only [strNat, if_neg (Nat.succ_ne_zero m)]
    rw [List.length_reverse, List.length_map]
    exact natToDigitsRev_length_ge 9 (m + 1) (by norm_num; omega)

/-- Every character of `str(n)` is an ASCII digit. -/
theorem strNat_digits (n : Nat) : ∀ b ∈ strNat n, isDigitB b = true := by
  match n with
  | 0 => intro b hb; simp [strNat] at hb; subst hb; decide
  | m + 1 =>
    intro b hb
    simp only [strNat, if_neg (Nat.succ_ne_zero m), List.mem_reverse, List.mem_map] at hb
    obtain ⟨d, hd, rfl⟩ := hb
    have := natToDigitsRev_lt (m + 1) d hd
    simp [isDigitB]
    omega

/-- Every character of a zero-filled digit string is an ASCII digit. -/
theorem zfill_digits (w : Nat) (s : List Nat) (h : ∀ b ∈ s, isDigitB b = true) :
    ∀ b ∈ zfill w s, isDigitB b = true := by
  intro b hb
  rcases List.mem_append.mp hb with hb | hb
  · rcases List.mem_replicate.mp hb with ⟨_, rfl⟩; decide
  · exact h b hb

/-- Length of a zero-filled string that needed padding. -/
theorem zfill_length (w : Nat) (s : List Nat) (h : s.length ≤ w) :
    (zfill w s).length = w := by
  simp [zfill]
  omega

/-- Zero-filling a string already at the width is the identity. -/
theorem zfill_of_ge (w : Nat) (s : List Nat) (h : w ≤ s.length) :
    zfill w s = s := by
  simp [zfill, Nat.sub_eq_zero_of_le h]

/-! ### Decimal parsing lemmas -/

/-- Folding the decimal accumulator over reversed digits. -/
theorem foldl_digits_reverse :
    ∀ (rev : List Nat) (acc : Nat), (∀ d ∈ rev, d < 10) →
      List.foldl (fun a b => a * 10 + (b - 48)) acc
          ((rev.map (fun d => d + 48)).reverse) =
        acc * 10 ^ rev.length + valRev rev := by
  intro rev
  induction rev with
  | nil => intro acc _; simp [valRev]
  | cons d r ih =>
    intro acc hd
    simp only [List.map_cons, List.reverse_cons, List.foldl_append, List.foldl_cons,
      List.foldl_nil]
    rw [ih acc (fun x hx => hd x (List.mem_cons_of_mem d hx))]
    simp only [valRev, List.length_cons]
    have : d + 48 - 48 = d := by omega
    rw [this, pow_succ]
    ring

/-- Reading `str(n)` back as decimal gives `n`. -/
theorem digitsToNat_strNat (n : Nat) : digitsToNat (strNat n) = n := by
  match n with
  | 0 => simp [strNat, digitsToNat]
  | m + 1 =>
    simp only [strNat, if_neg (Nat.succ_ne_zero m), digitsToNat]
    rw [foldl_digits_reverse (natToDigitsRev (m + 1)) 0 (natToDigitsRev_lt (m + 1))]
    simp [valRev_natToDigitsRev]

/-- Leading zeros do not change the decimal value. -/
theorem digitsToNat_zfill (w : Nat) (s : List Nat) :
    digitsToNat (zfill w s) = digitsToNat s := by
  simp only [digitsToNat, zfill, List.foldl_append]
  congr 1
  generalize w - s.length = k
  induction k with
  | zero => rfl
  | succ k ih =>
    rw [List.replicate_succ, List.foldl_cons]
    exact ih

/-- A digit byte is not whitespace. -/
theorem isDigitB_not_space (b : Nat) (h : isDigitB b = true) : isSpaceB b = false := by
  simp [isDigitB] at h
  simp [isSpaceB]
  omega

/-- `dropWhile` leaves a list alone when nothing satisfies the predicate. -/
theorem dropWhile_of_all_neg {p : Nat → Bool} :
    ∀ l : List Nat, (∀ b ∈ l, p b = false) → l.dropWhile p = l := by
  intro l h
  match l with
  | [] => rfl
  | a :: t => simp [List.dropWhile_cons, h a (List.mem_cons_self a t)]

/-- Stripping whitespace from an all-digit string is the identity. -/
theorem stripSpaces_of_digits (bs : List Nat) (h : ∀ b ∈ bs, isDigitB b = true) :
    stripSpaces bs = bs := by
  have hns : ∀ b ∈ bs, isSpaceB b = false := fun b hb => isDigitB_not_space b (h b hb)
  simp only [stripSpaces]
  rw [dropWhile_of_all_neg bs hns]
  rw [dropWhile_of_all_neg bs.reverse (fun b hb => hns b (List.mem_reverse.mp hb))]
  exact List.reverse_reverse bs

/-- The digit-part scanner on an all-digit tail just folds the accumulator. -/
theorem digitpartAux_all_digits :
    ∀ (r : List Nat) (acc : Nat), (∀ b ∈ r, isDigitB b = true) →
      digitpartAux r acc = some (r.foldl (fun a b => a * 10 + (b - 48)) acc) := by
  intro r
  induction r with
  | nil => intro acc _; simp [digitpartAux]
  | cons b r ih =>
    intro acc h
    have hb : isDigitB b = true := h b (List.mem_cons_self b r)
    have hb95 : b ≠ 95 := by simp [isDigitB] at hb; omega
    rw [digitpartAux.eq_def]
    simp only [if_neg hb95, if_pos hb, List.foldl_cons]
    exact ih (acc * 10 + (b - 48)) (fun x hx => h x (List.mem_cons_of_mem b hx))

/-- Python `int()` on a non-empty all-digit string returns its decimal value. -/
theorem pyInt_digits (bs : List Nat) (hne : bs ≠ [])
    (h : ∀ b ∈ bs, isDigitB b = true) :
    pyInt bs = some ((digitsToNat bs : Nat) : Int) := by
  rw [pyInt, stripSpaces_of_digits bs h]
  match bs, hne with
  | d :: r, _ =>
    have hd : isDigitB d = true := h d (List.mem_cons_self d r)
    have hd43 : d ≠ 43 := by simp [isDigitB] at hd; omega
    have hd45 : d ≠ 45 := by simp [isDigitB] at hd; omega
    simp only [pyIntSigned, if_neg hd43, if_neg hd45, parseDigitpart, if_pos hd]
    rw [digitpartAux_all_digits r (d - 48) (fun x hx => h x (List.mem_cons_of_mem d hx))]
    have hval : digitsToNat (d :: r) =
        List.foldl (fun a b => a * 10 + (b - 48)) (d - 48) r := by
      simp [digitsToNat]
    rw [hval]
    rfl

/-- Python `int()` applied to the padded header field of `str(n)` gives `n`
back, for every `n` (padded or overlong alike). -/
theorem pyInt_zfill_strNat (w n : Nat) : pyInt (zfill w (strNat n)) = some ((n : Nat) : Int) := by
  have hdig : ∀ b ∈ zfill w (strNat n), isDigitB b = true :=
    zfill_digits w (strNat n) (strNat_digits n)
  have hne : zfill w (strNat n) ≠ [] := by
    have h1 := strNat_length_pos n
    intro hcon
    have h2 : (zfill w (strNat n)).length = 0 := by rw [hcon]; rfl
    rw [zfill, List.length_append, List.length_replicate] at h2
    omega
  rw [pyInt_digits _ hne hdig, digitsToNat_zfill, digitsToNat_strNat]

/-! ### Read-loop lemmas -/

/-- Splitting a `take` of a sum. -/
theorem take_add_split {α : Type} :
    ∀ (m n : Nat) (l : List α), l.take (m + n) = l.take m ++ (l.drop m).take n := by
  intro m
  induction m with
  | zero => intro n l; simp
  | succ m ih =>
    intro n l
    match l with
    | [] => simp
    | a :: t =>
      have hmn : m + 1 + n = (m + n) + 1 := by omega
      rw [hmn, List.take_succ_cons, List.take_succ_cons, ih n t]
      simp

/-- The loop exits at once when enough data has accumulated. -/
theorem receive_length_go_done (sched stream data : List Nat) (len : Int)
    (h : ¬ ((data.length : Int) < len)) :
    receive_length_go sched stream len data = some (data, stream, sched) := by
  cases sched <;> simp [receive_length_go, h]

/-- `receive_length` with a non-positive length returns no bytes and touches
nothing (`while len(data) < length` is false at once). -/
theorem receive_length_of_nonpos (sched stream : List Nat) (len : Int) (h : len ≤ 0) :
    receive_length sched stream len = some ([], stream, sched) :=
  receive_length_go_done sched stream [] len (by simp; omega)

/-- One scheduled chunk that covers the whole request finishes the loop in a
single `recv`. -/
theorem receive_length_single (c : Nat) (sch stream : List Nat) (n : Nat)
    (h1 : 1 ≤ n) (h2 : n ≤ c) (h3 : n ≤ stream.length) :
    receive_length (c :: sch) stream (n : Int) =
      some (stream.take n, stream.drop n, sch) := by
  rw [receive_length, receive_length_go]
  have hlt : ((List.length ([] : List Nat) : Int) < (n : Int)) := by simp; omega
  rw [if_pos hlt]
  have hmin : min c ((n : Int) - ((List.length ([] : List Nat) : Int))).toNat = n := by
    simp
    omega
  rw [hmin]
  simp only [List.nil_append]
  apply receive_length_go_done
  rw [List.length_take]
  simp
  omega

/-- Short-read tolerance of the accumulation loop: as long as the schedule
delivers enough bytes in total, the loop returns exactly the missing bytes
in stream order, regardless of how they are chunked. -/
theorem receive_length_go_spec :
    ∀ (sched stream data : List Nat) (n : Nat),
      n - data.length ≤ stream.length →
      n - data.length ≤ sched.sum →
      ∃ sch2, receive_length_go sched stream (n : Int) data =
        some (data ++ stream.take (n - data.length),
          stream.drop (n - data.length), sch2) := by
  intro sched
  induction sched with
  | nil =>
    intro stream data n h1 h2
    simp only [List.sum_nil, Nat.le_zero] at h2
    refine ⟨[], ?_⟩
    rw [receive_length_go_done _ _ _ _ (by simp; omega)]
    rw [h2]
    simp
  | cons c rest ih =>
    intro stream data n h1 h2
    by_cases hlt : data.length < n
    · have hneed : 1 ≤ n - data.length := by omega
      rw [receive_length_go]
      rw [if_pos (by simp; omega)]
      have htn : ((n : Int) - ((data.length : Nat) : Int)).toNat = n - data.length := by
        omega
      rw [htn]
      set need := n - data.length with hneed_def
      set m := min c need with hm_def
      have hm_le_need : m ≤ need := by omega
      have hm_le_stream : m ≤ stream.length := by omega
      have htake_len : (stream.take m).length = m := by
        rw [List.length_take]; omega
      have hdata2 : (data ++ stream.take m).length = data.length + m := by
        rw [List.length_append, htake_len]
      have hneed2 : n - (data ++ stream.take m).length = need - m := by
        rw [hdata2]; omega
      have h1b : n - (data ++ stream.take m).length ≤ (stream.drop m).length := by
        rw [hneed2, List.length_drop]; omega
      have h2b : n - (data ++ stream.take m).length ≤ rest.sum := by
        rw [hneed2]
        have hsum : need ≤ c + rest.sum := by
          simpa [List.sum_cons] using h2
        omega
      obtain ⟨sch2, hrec⟩ := ih (stream.drop m) (data ++ stream.take m) n h1b h2b
      refine ⟨sch2, ?_⟩
      rw [hrec, hneed2]
      have hjoin : (data ++ stream.take m) ++ (stream.drop m).take (need - m) =
          data ++ stream.take need := by
        rw [List.append_assoc]
        congr 1
        rw [← take_add_split]
        congr 1
        omega
      have hdrop : (stream.drop m).drop (need - m) = stream.drop need := by
        rw [List.drop_drop]
        congr 1
        omega
      rw [hjoin, hdrop]
    · refine ⟨c :: rest, ?_⟩
      rw [receive_length_go_done _ _ _ _ (by simp; omega)]
      have hz : n - data.length = 0 := by omega
      rw [hz]
      simp

/-- Whenever the accumulation loop returns, it returns exactly the requested
number of bytes — never a truncated or padded buffer. -/
theorem receive_length_go_exact :
    ∀ (sched stream data : List Nat) (n : Nat) (bs s2 sch2 : List Nat),
      data.length ≤ n →
      receive_length_go sched stream (n : Int) data = some (bs, s2, sch2) →
      bs.length = n := by
  intro sched
  induction sched with
  | nil =>
    intro stream data n bs s2 sch2 hle h
    rw [receive_length_go] at h
    by_cases hlt : data.length < n
    · rw [if_pos (by simp; omega)] at h
      exact absurd h (by simp)
    · rw [if_neg (by simp; omega)] at h
      simp only [Option.some.injEq, Prod.mk.injEq] at h
      obtain ⟨hbs, -, -⟩ := h
      subst hbs
      omega
  | cons c rest ih =>
    intro stream data n bs s2 sch2 hle h
    rw [receive_length_go] at h
    by_cases hlt : data.length < n
    · rw [if_pos (by simp; omega)] at h
      have htn : ((n : Int) - ((data.length : Nat) : Int)).toNat = n - data.length := by
        omega
      rw [htn] at h
      refine ih _ _ n bs s2 sch2 ?_ h
      rw [List.length_append, List.length_take]
      omega
    · rw [if_neg (by simp; omega)] at h
      simp only [Option.some.injEq, Prod.mk.injEq] at h
      obtain ⟨hbs, -, -⟩ := h
      subst hbs
      omega

/-! ### Frame lemmas -/

/-- The header written by `_initiate` is the type byte and the padded
decimal length. -/
theorem _initiate_eq (t n : Nat) : _initiate t n = t :: zfill 9 (strNat n) := rfl

/-- The byte sequence emitted by `send_string` as a frame shape. -/
theorem send_string_eq (s : List Nat) :
    send_string s = STRING_TYPE :: zfill 9 (strNat s.length) ++ s := rfl

/-- `_wait` on a well-formed header with an in-budget length: reads the 10
header bytes and parses the type byte and length. -/
theorem wait_frame (c : Nat) (sch : List Nat) (t n : Nat) (tail : List Nat)
    (hc : 10 ≤ c) (hn : n ≤ 999999999) :
    _wait (c :: sch) (t :: zfill 9 (strNat n) ++ tail) =
      WaitResult.ok t (n : Int) tail sch := by
  have hz : (zfill 9 (strNat n)).length = 9 :=
    zfill_length 9 (strNat n) (strNat_length_le n hn)
  have hshape : t :: zfill 9 (strNat n) ++ tail = (t :: zfill 9 (strNat n)) ++ tail := by
    simp
  have hlen10 : (t :: zfill 9 (strNat n)).length = 10 := by
    simp [hz]
  have hstream : 10 ≤ (t :: zfill 9 (strNat n) ++ tail).length := by
    rw [hshape, List.length_append, hlen10]
    omega
  have hsingle : receive_length (c :: sch) (t :: zfill 9 (strNat n) ++ tail)
      ((10 : Nat) : Int) =
      some (t :: zfill 9 (strNat n), tail, sch) := by
    rw [receive_length_single c sch _ 10 (by omega) hc hstream]
    rw [hshape, List.take_left' hlen10, List.drop_left' hlen10]
  rw [_wait]
  have hHL : ((HEADER_LENGTH : Nat) : Int) = ((10 : Nat) : Int) := rfl
  rw [hHL, hsingle]
  simp only [List.headD_cons, List.drop_succ_cons, List.drop_zero]
  rw [pyInt_zfill_strNat 9 n]

/-- `receive` on a complete frame with an in-budget length, delivered as one
header chunk and one payload chunk: reads the payload and dispatches on the
type byte. -/
theorem receive_frame {α : Type} (loads : List Nat → Option α) (t n : Nat)
    (payload rest : List Nat) (hp : payload.length = n) (hn : n ≤ 999999999) :
    receive loads [10, n] (t :: zfill 9 (strNat n) ++ (payload ++ rest)) =
      if t = STRING_TYPE then RecvResult.str payload
      else if t = JSON_TYPE then
        match loads payload with
        | some v => RecvResult.obj v
        | none => RecvResult.jsonError
      else RecvResult.noneVal := by
  rw [receive, wait_frame 10 [n] t n (payload ++ rest) (by omega) hn]
  rcases Nat.eq_zero_or_pos n with hn0 | hn1
  · subst hn0
    have hpe : payload = [] := List.eq_nil_of_length_eq_zero hp
    subst hpe
    simp only [receive_length_of_nonpos [0] ([] ++ rest) ((0 : Nat) : Int) (by simp)]
  · simp only [receive_length_single n [] (payload ++ rest) n (by omega) (by omega)
      (by rw [List.length_append]; omega), List.take_left' hp, List.drop_left' hp]

/-- A schedule consisting only of zero-byte reads (the closed-peer `recv`
result) never completes a positive request: the `while` loop makes no
progress on any of its finitely many iterations. -/
theorem receive_length_go_zero_reads :
    ∀ (sched stream data : List Nat) (len : Int),
      (∀ c ∈ sched, c = 0) → (data.length : Int) < len →
      receive_length_go sched stream len data = none := by
  intro sched
  induction sched with
  | nil =>
    intro stream data len _ hlt
    rw [receive_length_go, if_pos hlt]
  | cons c rest ih =>
    intro stream data len hz hlt
    have hc : c = 0 := hz c (List.mem_cons_self c rest)
    subst hc
    rw [receive_length_go, if_pos hlt]
    simp only [Nat.zero_min, List.drop_zero, List.take_zero, List.append_nil]
    exact ih stream data len (fun x hx => hz x (List.mem_cons_of_mem 0 hx)) hlt

/-! ### Relay trace lemmas -/

/-- A send operation counts as a send. -/
theorem opIsSend_send {α : Type} (v : α) : opIsSend (Op.sendOp v) = true := rfl

/-- A receive operation does not count as a send. -/
theorem opIsSend_recv {α : Type} (v : α) : opIsSend (Op.recvOp v) = false := rfl

/-- Prepending one receive and one send preserves the slave-side prefix
bounds. -/
theorem slave_bounds_cons {α : Type} (v w : α) (tr : List (Op α))
    (h : ∀ k, sends (tr.take k) ≤ recvs (tr.take k) ∧
      recvs (tr.take k) ≤ sends (tr.take k) + 1) :
    ∀ k, sends (((Op.recvOp v) :: (Op.sendOp w) :: tr).take k) ≤
        recvs (((Op.recvOp v) :: (Op.sendOp w) :: tr).take k) ∧
      recvs (((Op.recvOp v) :: (Op.sendOp w) :: tr).take k) ≤
        sends (((Op.recvOp v) :: (Op.sendOp w) :: tr).take k) + 1 := by
  intro k
  match k with
  | 0 => simp [sends, recvs]
  | 1 => simp [sends, recvs, List.countP_cons, opIsSend_send, opIsSend_recv]
  | m + 2 =>
    have hm := h m
    simp only [List.take_succ_cons, sends, recvs, List.countP_cons,
      opIsSend_send, opIsSend_recv, Bool.not_false, Bool.not_true] at hm ⊢
    simp only [if_true, if_false] at hm ⊢
    omega

/-- Every prefix of a slave trace is empty or starts with a receive. -/
theorem slave_bounds_nil {α : Type} :
    ∀ k, sends (List.take k ([] : List (Op α))) ≤ recvs (List.take k ([] : List (Op α))) ∧
      recvs (List.take k ([] : List (Op α))) ≤ sends (List.take k ([] : List (Op α))) + 1 := by
  intro k
  simp [sends, recvs]

/-- A trace consisting of a single receive satisfies the slave bounds. -/
theorem slave_bounds_single {α : Type} (v : α) :
    ∀ k, sends ([Op.recvOp v].take k) ≤ recvs ([Op.recvOp v].take k) ∧
      recvs ([Op.recvOp v].take k) ≤ sends ([Op.recvOp v].take k) + 1 := by
  intro k
  match k with
  | 0 => simp [sends, recvs]
  | m + 1 => simp [sends, recvs, List.countP_cons, opIsSend]

/-- Per-prefix alternation bounds for the slave loop: the number of replies
sent never exceeds the number of commands received, and the commands
received never run more than one ahead of the replies sent. -/
theorem slave_trace_bounds {α : Type} :
    ∀ (fuel : Nat) (incoming : List (Except Unit α)) (respond : α → Option α) (k : Nat),
      sends (((slave_run_exc fuel incoming respond).1).take k) ≤
        recvs (((slave_run_exc fuel incoming respond).1).take k) ∧
      recvs (((slave_run_exc fuel incoming respond).1).take k) ≤
        sends (((slave_run_exc fuel incoming respond).1).take k) + 1 := by
  intro fuel
  induction fuel with
  | zero => intro incoming respond k; exact slave_bounds_nil k
  | succ f ih =>
    intro incoming respond k
    match incoming with
    | [] => exact slave_bounds_nil k
    | Except.error e :: rest => exact slave_bounds_nil k
    | Except.ok v :: rest =>
      rw [slave_run_exc]
      match hres : respond v with
      | none => exact slave_bounds_single v k
      | some r => exact slave_bounds_cons v r _ (fun j => ih rest respond j) k

/-- Prepending one send and one receive preserves the master-side prefix
bounds. -/
theorem master_bounds_cons {α : Type} (v w : α) (tr : List (Op α))
    (h : ∀ k, recvs (tr.take k) ≤ sends (tr.take k) ∧
      sends (tr.take k) ≤ recvs (tr.take k) + 1) :
    ∀ k, recvs (((Op.sendOp v) :: (Op.recvOp w) :: tr).take k) ≤
        sends (((Op.sendOp v) :: (Op.recvOp w) :: tr).take k) ∧
      sends (((Op.sendOp v) :: (Op.recvOp w) :: tr).take k) ≤
        recvs (((Op.sendOp v) :: (Op.recvOp w) :: tr).take k) + 1 := by
  intro k
  match k with
  | 0 => simp [sends, recvs]
  | 1 => simp [sends, recvs, List.countP_cons, opIsSend_send, opIsSend_recv]
  | m + 2 =>
    have hm := h m
    simp only [List.take_succ_cons, sends, recvs, List.countP_cons,
      opIsSend_send, opIsSend_recv, Bool.not_false, Bool.not_true] at hm ⊢
    simp only [if_true, if_false] at hm ⊢
    omega

/-- The empty trace satisfies the master bounds. -/
theorem master_bounds_nil {α : Type} :
    ∀ k, recvs (List.take k ([] : List (Op α))) ≤ sends (List.take k ([] : List (Op α))) ∧
      sends (List.take k ([] : List (Op α))) ≤ recvs (List.take k ([] : List (Op α))) + 1 := by
  intro k
  simp [sends, recvs]

/-- A trace consisting of a single send satisfies the master bounds. -/
theorem master_bounds_single {α : Type} (v : α) :
    ∀ k, recvs ([Op.sendOp v].take k) ≤ sends ([Op.sendOp v].take k) ∧
      sends ([Op.sendOp v].take k) ≤ recvs ([Op.sendOp v].take k) + 1 := by
  intro k
  match k with
  | 0 => simp [sends, recvs]
  | m + 1 => simp [sends, recvs, List.countP_cons, opIsSend]

/-- Per-prefix alternation bounds for the master loop: the number of replies
received never exceeds the number of commands sent, and the commands sent
never run more than one ahead of the replies received. -/
theorem master_trace_bounds {α : Type} :
    ∀ (fuel : Nat) (commands : List α) (replies : List (Except Unit α)) (k : Nat),
      recvs (((master_run_exc fuel commands replies).1).take k) ≤
        sends (((master_run_exc fuel commands replies).1).take k) ∧
      sends (((master_run_exc fuel commands replies).1).take k) ≤
        recvs (((master_run_exc fuel commands replies).1).take k) + 1 := by
  intro fuel
  induction fuel with
  | zero => intro commands replies k; exact master_bounds_nil k
  | succ f ih =>
    intro commands replies k
    match commands, replies with
    | [], _ => exact master_bounds_nil k
    | c :: cs, [] => exact master_bounds_single c k
    | c :: cs, Except.error e :: rs => exact master_bounds_single c k
    | c :: cs, Except.ok r :: rs =>
      rw [master_run_exc]
      exact master_bounds_cons c r _ (fun j => ih cs rs j) k

/-- The `running` attribute of the slave stays `True` however the loop ends:
no code path clears it, exceptions included. -/
theorem slave_running_true {α : Type} :
    ∀ (fuel : Nat) (incoming : List (Except Unit α)) (respond : α → Option α),
      (slave_run_exc fuel incoming respond).2 = true := by
  intro fuel
  induction fuel with
  | zero => intro incoming respond; rfl
  | succ f ih =>
    intro incoming respond
    match incoming with
    | [] => rfl
    | Except.error e :: rest => rfl
    | Except.ok v :: rest =>
      rw [slave_run_exc]
      match respond v with
      | none => rfl
      | some r => exact ih rest respond

/-- The `running` attribute of the master stays `True` however the loop
ends. -/
theorem master_running_true {α : Type} :
    ∀ (fuel : Nat) (commands : List α) (replies : List (Except Unit α)),
      (master_run_exc fuel commands replies).2 = true := by
  intro fuel
  induction fuel with
  | zero => intro commands replies; rfl
  | succ f ih =>
    intro commands replies
    match commands, replies with
    | [], _ => rfl
    | c :: cs, [] => rfl
    | c :: cs, Except.error e :: rs => rfl
    | c :: cs, Except.ok r :: rs =>
      rw [master_run_exc]
      exact ih cs rs

/-! ### The claims -/

/-- C1: Strict alternation holds for both relay roles: on every prefix of a
slave loop trace the replies sent never outnumber the commands received and
the commands received lead by at most one; on every prefix of a master loop
trace the replies received never outnumber the commands sent and the
commands sent lead by at most one.  Together the two bounds say sends and
receives on one relay interleave one-for-one. -/
theorem C1_strict_alternation {α β : Type} (fuel : Nat)
    (incoming : List (Except Unit α)) (respond : α → Option α)
    (commands : List β) (replies : List (Except Unit β)) (k : Nat) :
    (sends (((slave_run_exc fuel incoming respond).1).take k) ≤
        recvs (((slave_run_exc fuel incoming respond).1).take k) ∧
      recvs (((slave_run_exc fuel incoming respond).1).take k) ≤
        sends (((slave_run_exc fuel incoming respond).1).take k) + 1) ∧
    (recvs (((master_run_exc fuel commands replies).1).take k) ≤
        sends (((master_run_exc fuel commands replies).1).take k) ∧
      sends (((master_run_exc fuel commands replies).1).take k) ≤
        recvs (((master_run_exc fuel commands replies).1).take k) + 1) :=
  ⟨slave_trace_bounds fuel incoming respond k,
    master_trace_bounds fuel commands replies k⟩

/-- C2: evaluation at the failing input.  Even with a JSON codec that round
trips (`loadsNat (dumpsNat 5) = some 5`), sending the value `5` through
`send_json` and decoding the resulting frame yields the JSON text `"5"`
(the byte string `[53]`), not the value `5`: `send_json` hands the JSON
text to `send_string`, which tags the frame `STRING_TYPE`, so `receive`
returns the raw text without deserializing. -/
theorem C2_json_frame_eval :
    loadsNat (dumpsNat 5) = some 5 ∧
    receive loadsNat [10, 1] (send_json dumpsNat 5) = RecvResult.str [53] ∧
    (RecvResult.str [53] : RecvResult Nat) ≠ RecvResult.obj 5 := by
  refine ⟨by decide, by decide, by decide⟩

/-- C3: header invariant.  For every payload of byte length at most
999,999,999, the frame emitted by `send_string` starts with the
`_initiate` header of exactly 10 bytes: one type byte followed by 9 ASCII
digit bytes (zero-padded, no sign, no separators) which `int()` parses back
to exactly the byte length of the payload that follows. -/
theorem C3_header_invariant (s : List Nat) (h : s.length ≤ 999999999) :
    (send_string s).take 10 = _initiate STRING_TYPE s.length ∧
    (_initiate STRING_TYPE s.length).length = 10 ∧
    (_initiate STRING_TYPE s.length).headD 0 = STRING_TYPE ∧
    ((_initiate STRING_TYPE s.length).drop 1).length = 9 ∧
    (∀ b ∈ (_initiate STRING_TYPE s.length).drop 1, 48 ≤ b ∧ b ≤ 57) ∧
    pyInt ((_initiate STRING_TYPE s.length).drop 1) = some ((s.length : Nat) : Int) ∧
    (send_string s).drop 10 = s := by
  have hz : (zfill 9 (strNat s.length)).length = 9 :=
    zfill_length 9 (strNat s.length) (strNat_length_le s.length h)
  have hlen10 : (STRING_TYPE :: zfill 9 (strNat s.length)).length = 10 := by
    simp [hz]
  have hshape : send_string s = (STRING_TYPE :: zfill 9 (strNat s.length)) ++ s := rfl
  refine ⟨?_, ?_, rfl, ?_, ?_, ?_, ?_⟩
  · rw [hshape, List.take_left' hlen10, _initiate_eq]
  · rw [_initiate_eq]; exact hlen10
  · rw [_initiate_eq]; simp [hz]
  · rw [_initiate_eq]
    simp only [List.drop_succ_cons, List.drop_zero]
    intro b hb
    have := zfill_digits 9 (strNat s.length) (strNat_digits s.length) b hb
    simp [isDigitB] at this
    omega
  · rw [_initiate_eq]
    simp only [List.drop_succ_cons, List.drop_zero]
    exact pyInt_zfill_strNat 9 s.length
  · rw [hshape, List.drop_left' hlen10]

/-- C3 witness: the header invariant at the two-byte payload `"hi"`. -/
theorem C3_header_invariant_witness :
    (send_string [104, 105]).take 10 = _initiate STRING_TYPE ([104, 105] : List Nat).length ∧
    (_initiate STRING_TYPE ([104, 105] : List Nat).length).length = 10 ∧
    (_initiate STRING_TYPE ([104, 105] : List Nat).length).headD 0 = STRING_TYPE ∧
    ((_initiate STRING_TYPE ([104, 105] : List Nat).length).drop 1).length = 9 ∧
    (∀ b ∈ (_initiate STRING_TYPE ([104, 105] : List Nat).length).drop 1,
      48 ≤ b ∧ b ≤ 57) ∧
    pyInt ((_initiate STRING_TYPE ([104, 105] : List Nat).length).drop 1) =
      some ((([104, 105] : List Nat).length : Nat) : Int) ∧
    (send_string [104, 105]).drop 10 = [104, 105] :=
  C3_header_invariant [104, 105] (by norm_num)

/-- C4 counterexample: a payload needing a tenth digit does not make the
send path fail — `send_string` happily emits the frame, and its header is
11 bytes instead of 10 (`zfill` pads but never truncates, so `_initiate`
writes the full unpadded decimal length). -/
theorem C4_overlong_header_cex :
    (_initiate STRING_TYPE 1000000000).length = 11 ∧
    send_string (List.replicate 1000000000 97) =
      _initiate STRING_TYPE 1000000000 ++ List.replicate 1000000000 97 := by
  constructor
  · decide
  · have hlen : _length (List.replicate 1000000000 97) = 1000000000 :=
      List.length_replicate 1000000000 97
    rw [send_string, hlen]
    rfl

/-- C4 amended: for a length needing a tenth digit, `_initiate` neither
fails nor truncates: it emits the type byte followed by the full unpadded
decimal representation, making the header at least 11 bytes, and the digit
field still parses back to the true length. -/
theorem C4_overlong_unpadded (t n : Nat) (h : 999999999 < n) :
    _initiate t n = t :: strNat n ∧
    11 ≤ (_initiate t n).length ∧
    pyInt ((_initiate t n).drop 1) = some ((n : Nat) : Int) := by
  have h10 := strNat_length_ge n h
  have hz : zfill 9 (strNat n) = strNat n := zfill_of_ge 9 (strNat n) (by omega)
  refine ⟨by rw [_initiate_eq, hz], ?_, ?_⟩
  · rw [_initiate_eq, hz]
    simp only [List.length_cons]
    omega
  · rw [_initiate_eq]
    simp only [List.drop_succ_cons, List.drop_zero]
    exact pyInt_zfill_strNat 9 n

/-- C4 witness: the amended statement at the length 1,000,000,000. -/
theorem C4_overlong_unpadded_witness :
    _initiate STRING_TYPE 1000000000 = STRING_TYPE :: strNat 1000000000 ∧
    11 ≤ (_initiate STRING_TYPE 1000000000).length ∧
    pyInt ((_initiate STRING_TYPE 1000000000).drop 1) =
      some ((1000000000 : Nat) : Int) :=
  C4_overlong_unpadded STRING_TYPE 1000000000 (by norm_num)

/-- C5 counterexample: no `ProtocolError` exists anywhere in the code.  A
frame whose type byte is `'x'` (120) makes `receive` fall through both tag
tests and return Python `None`; and a length field `"+00000004"` — whose
bytes 1–9 contain the non-digit `'+'` — is happily accepted by `int()`, so
`receive` succeeds and returns the payload instead of failing at all. -/
theorem C5_no_protocol_error_cex :
    receive loads0 [10, 4] (120 :: zfill 9 (strNat 4) ++ [97, 98, 99, 100]) =
      RecvResult.noneVal ∧
    receive loads0 [10, 4]
        (115 :: ((43 :: List.replicate 7 48) ++ [52]) ++ [97, 98, 99, 100]) =
      RecvResult.str [97, 98, 99, 100] := by
  refine ⟨by decide, by decide⟩

/-- C5 amended: on a malformed header, `receive` behaves as follows.  If
byte 0 is neither of the two known tags, the header and payload are
consumed and `receive` returns Python `None` (no error).  If bytes 1–9 are
rejected by Python `int()` — which accepts surrounding whitespace, one
sign, and underscores between digits, and only raises on the rest — the
`int()` call raises `ValueError`. -/
theorem C5_receive_malformed_header {α : Type} (loads : List Nat → Option α) :
    (∀ (t n : Nat) (payload rest : List Nat),
      t ≠ STRING_TYPE → t ≠ JSON_TYPE → payload.length = n → n ≤ 999999999 →
      receive loads [10, n] (t :: zfill 9 (strNat n) ++ (payload ++ rest)) =
        RecvResult.noneVal) ∧
    (∀ (c : Nat) (sch stream : List Nat), 10 ≤ c → 10 ≤ stream.length →
      pyInt ((stream.take 10).drop 1) = none →
      receive loads (c :: sch) stream = RecvResult.valueError) := by
  constructor
  · intro t n payload rest ht hj hp hn
    rw [receive_frame loads t n payload rest hp hn, if_neg ht, if_neg hj]
  · intro c sch stream hc hs hpar
    have hone : receive_length (c :: sch) stream ((HEADER_LENGTH : Nat) : Int) =
        some (stream.take 10, stream.drop 10, sch) :=
      receive_length_single c sch stream 10 (by omega) hc hs
    rw [receive, _wait]
    simp only [hone, hpar]

/-- C5 witness: the amended behaviour at tag 120 with length 2, and at a
header whose length field starts with the letter `'a'`. -/
theorem C5_receive_malformed_header_witness :
    receive loads0 [10, 2] (120 :: zfill 9 (strNat 2) ++ ([97, 98] ++ [])) =
      RecvResult.noneVal ∧
    receive loads0 [10] (115 :: 97 :: List.replicate 8 48) =
      RecvResult.valueError :=
  ⟨(C5_receive_malformed_header loads0).1 120 2 [97, 98] [] (by decide) (by decide)
      (by decide) (by decide),
    (C5_receive_malformed_header loads0).2 10 [] (115 :: 97 :: List.replicate 8 48)
      (by decide) (by decide) (by decide)⟩

/-- C6 counterexample: when the transport starts returning zero bytes
mid-payload (closed peer), `receive` does not raise anything — no
`TransportError` exists in the code — it simply never returns: every
further `recv` makes no progress, modelled as the `blocked` outcome. -/
theorem C6_zero_read_cex :
    receive loads0 [10, 0, 0, 0] (115 :: zfill 9 (strNat 4) ++ [97, 98]) =
      RecvResult.blocked := by
  decide

/-- C6 amended: the read loop never returns a truncated or empty buffer —
whenever `receive_length` returns, it returns exactly the requested number
of bytes — but a peer close is not detected: a run of zero-byte reads of
any length leaves the loop spinning without returning, and no
`TransportError` (or any exception) is raised. -/
theorem C6_read_loop_exact_or_spins :
    (∀ (sched stream : List Nat) (n : Nat) (bs s2 sch2 : List Nat),
      receive_length sched stream (n : Int) = some (bs, s2, sch2) →
      bs.length = n) ∧
    (∀ (sched stream : List Nat) (len : Int), (∀ c ∈ sched, c = 0) → 0 < len →
      receive_length sched stream len = none) := by
  constructor
  · intro sched stream n bs s2 sch2 hsome
    exact receive_length_go_exact sched stream [] n bs s2 sch2 (by simp) hsome
  · intro sched stream len hz hpos
    exact receive_length_go_zero_reads sched stream [] len hz (by simp; omega)

/-- C6 witness: a completed read of 3 bytes is exactly 3 bytes long, and
two zero-byte reads leave a request for 3 bytes unreturned. -/
theorem C6_read_loop_witness :
    ([1, 2, 3] : List Nat).length = 3 ∧
    receive_length [0, 0] [9, 9, 9] (3 : Int) = none :=
  ⟨C6_read_loop_exact_or_spins.1 [5] [1, 2, 3, 4, 5] 3 [1, 2, 3] [4, 5] []
      (by decide),
    C6_read_loop_exact_or_spins.2 [0, 0] [9, 9, 9] 3 (by decide) (by decide)⟩

/-- C7: short-read tolerance.  If every scheduled read delivers at least
one byte and the transport delivers at least the `n` requested bytes in
total, `receive_length` keeps issuing reads until exactly `n` bytes have
accumulated and returns exactly the first `n` stream bytes in order,
however the transport chunks them. -/
theorem C7_short_read_tolerance (sched stream : List Nat) (n : Nat)
    (_hpos : ∀ c ∈ sched, 1 ≤ c) (hstream : n ≤ stream.length)
    (hsum : n ≤ sched.sum) :
    ∃ sch2, receive_length sched stream (n : Int) =
      some (stream.take n, stream.drop n, sch2) := by
  have h := receive_length_go_spec sched stream [] n (by simpa) (by simpa)
  simpa using h

set_option maxRecDepth 10000 in
/-- C7 witness: 1,000 payload bytes delivered in 7-byte chunks are fully
reconstructed. -/
theorem C7_short_read_tolerance_witness :
    ∃ sch2, receive_length (List.replicate 143 7) (List.replicate 1000 97)
        ((1000 : Nat) : Int) =
      some ((List.replicate 1000 97).take 1000,
        (List.replicate 1000 97).drop 1000, sch2) :=
  C7_short_read_tolerance (List.replicate 143 7) (List.replicate 1000 97) 1000
    (by intro c hc; rw [List.eq_of_mem_replicate hc]; norm_num)
    (by rw [List.length_replicate]) (by decide)

/-- C8 counterexample: after `receive` raises on the relay thread, the
slave relay's observable state (trace stopped, `running` still `True`) is
identical to that of a relay that is merely still waiting for its first
command — the application cannot observe the failure.  The master likewise
keeps `running = True` after its receive raises. -/
theorem C8_silent_failure_cex :
    slave_run_exc 5 [Except.error ()] (fun v : Nat => some v) =
      slave_run_exc 5 ([] : List (Except Unit Nat)) (fun v => some v) ∧
    (slave_run_exc 5 [Except.error ()] (fun v : Nat => some v)).2 = true ∧
    master_run_exc 5 [(3 : Nat)] [Except.error ()] = ([Op.sendOp 3], true) := by
  refine ⟨rfl, rfl, rfl⟩

/-- C8 amended: an I/O or protocol error on the relay thread does terminate
the relay's loop — an exception from `receive` ends the trace at once —
but nothing exposes the failure to the application: `run` installs no
handler, records nothing, and leaves the `running` attribute `True`, so the
failed relay is indistinguishable from an idle one. -/
theorem C8_error_terminates_loop_unexposed {α : Type} :
    (∀ (fuel : Nat) (incoming : List (Except Unit α)) (respond : α → Option α),
      (slave_run_exc fuel incoming respond).2 = true) ∧
    (∀ (k : Nat) (rest : List (Except Unit α)) (respond : α → Option α),
      slave_run_exc (k + 1) (Except.error () :: rest) respond = ([], true)) ∧
    (∀ (fuel : Nat) (commands : List α) (replies : List (Except Unit α)),
      (master_run_exc fuel commands replies).2 = true) ∧
    (∀ (k : Nat) (c : α) (cs : List α) (rs : List (Except Unit α)),
      master_run_exc (k + 1) (c :: cs) (Except.error () :: rs) =
        ([Op.sendOp c], true)) := by
  refine ⟨slave_running_true, ?_, master_running_true, ?_⟩
  · intro k rest respond; rfl
  · intro k c cs rs; rfl

/-- C9: evaluation at the failing input.  Every frame emitted through
`send` starts with `STRING_TYPE` (`'s'`, 115) — never with `JSON_TYPE`
(`'j'`, 106): `send_json` serializes to JSON text but then calls
`send_string`, which writes the TEXT tag. -/
theorem C9_string_tag_eval :
    (∀ (γ : Type) (dumps : γ → List Nat) (v : γ),
      (send dumps v).headD 0 = STRING_TYPE) ∧
    (send dumpsNat 5).headD 0 = 115 ∧
    STRING_TYPE = 115 ∧ JSON_TYPE = 106 ∧ STRING_TYPE ≠ JSON_TYPE := by
  refine ⟨?_, by decide, rfl, rfl, by decide⟩
  intro γ dumps v
  rfl

/-- C10: atomicity of the send path under serialization failure.
`send_json` (and `send`) call `json.dumps` before anything is written; if
serialization fails, the call fails with the transport untouched — no
header or payload byte is emitted. -/
theorem C10_send_json_atomic {α : Type} (dumps : α → Option (List Nat)) (v : α)
    (out : List Nat) (h : dumps v = none) :
    send_json_run dumps v out = (false, out) ∧
    send_run dumps v out = (false, out) := by
  constructor
  · rw [send_json_run, h]
  · rw [send_run, send_json_run, h]

/-- C10 witness: a serializer that fails on `0` leaves the transport
contents `[1, 2, 3]` unchanged. -/
theorem C10_send_json_atomic_witness :
    send_json_run (fun _ : Nat => (none : Option (List Nat))) 0 [1, 2, 3] =
      (false, [1, 2, 3]) ∧
    send_run (fun _ : Nat => (none : Option (List Nat))) 0 [1, 2, 3] =
      (false, [1, 2, 3]) :=
  C10_send_json_atomic (fun _ => none) 0 [1, 2, 3] rfl

end Connection
